import Mathlib

set_option maxHeartbeats 1000000

/-!
Verification development for the Wordle-solver core in `src/main.py`.

Words, guess words and emoji patterns are modelled as `List Char` (the shallow
embedding of Python strings).  A clue is a pair `(guess_word, emoji_result)`.
The Python value `(None, None)` returned by `parse_guess` on failure is
modelled as `none`; a successful parse returns `some (word, pattern)`.
-/

namespace WordSolver

/-- Extension of the regex character class [🟥🟨🟩] used throughout src/main.py. -/
def emoji_chars : List Char := ['🟥', '🟨', '🟩']

/-- Membership test for the regex class [🟥🟨🟩]. -/
def is_emoji_char (c : Char) : Bool := emoji_chars.contains c

/-- Extension of the regex character class [a-zA-Z]. -/
def ascii_letters : List Char :=
  "abcdefghijklmnopqrstuvwxyzABCDEFGHIJKLMNOPQRSTUVWXYZ".toList

/-- Membership test for the regex class [a-zA-Z]. -/
def is_ascii_letter (c : Char) : Bool := ascii_letters.contains c

/-- Lower-case ASCII letters a..z (the alphabet of parsed words). -/
def lower_letters : List Char := "abcdefghijklmnopqrstuvwxyz".toList

/-- Extension of the regex character class [𝗔-𝗭]: the mathematical sans-serif
bold capitals U+1D5D4 .. U+1D5ED, enumerated. -/
def math_bold_letters : List Char :=
  "𝗔𝗕𝗖𝗗𝗘𝗙𝗚𝗛𝗜𝗝𝗞𝗟𝗠𝗡𝗢𝗣𝗤𝗥𝗦𝗧𝗨𝗩𝗪𝗫𝗬𝗭".toList

/-- Membership test for the regex class [𝗔-𝗭]. -/
def is_math_bold (c : Char) : Bool := math_bold_letters.contains c

/-- Whitespace characters recognised by the regex class \s and by str.strip,
restricted to the ASCII whitespace that can occur in chat messages. -/
def ws_chars : List Char := [' ', '\t', '\n', '\r', '\x0b', '\x0c']

/-- Whitespace test. -/
def is_ws (c : Char) : Bool := ws_chars.contains c

/-- Translation of the math_bold_to_regular dictionary in parse_guess
(src/main.py lines 38-43), as an association list. -/
def math_bold_map : List (Char × Char) :=
  [('𝗔', 'A'), ('𝗕', 'B'), ('𝗖', 'C'), ('𝗗', 'D'), ('𝗘', 'E'), ('𝗙', 'F'),
   ('𝗚', 'G'), ('𝗛', 'H'), ('𝗜', 'I'), ('𝗝', 'J'), ('𝗞', 'K'), ('𝗟', 'L'),
   ('𝗠', 'M'), ('𝗡', 'N'), ('𝗢', 'O'), ('𝗣', 'P'), ('𝗤', 'Q'), ('𝗥', 'R'),
   ('𝗦', 'S'), ('𝗧', 'T'), ('𝗨', 'U'), ('𝗩', 'V'), ('𝗪', 'W'), ('𝗫', 'X'),
   ('𝗬', 'Y'), ('𝗭', 'Z')]

/-- Python dict lookup math_bold_to_regular.get(char, char)
(src/main.py lines 45-50, per character). -/
def math_bold_to_regular (c : Char) : Char :=
  match math_bold_map.find? (fun p => p.1 == c) with
  | some p => p.2
  | none => c

/-- Translation of convert_math_bold_to_regular (src/main.py lines 45-50). -/
def convert_math_bold_to_regular (s : List Char) : List Char :=
  s.map math_bold_to_regular

/-- Upper-to-lower case table: Python str.lower restricted to the ASCII
letters, the only characters that reach .lower() in parse_guess. -/
def lower_map : List (Char × Char) :=
  [('A', 'a'), ('B', 'b'), ('C', 'c'), ('D', 'd'), ('E', 'e'), ('F', 'f'),
   ('G', 'g'), ('H', 'h'), ('I', 'i'), ('J', 'j'), ('K', 'k'), ('L', 'l'),
   ('M', 'm'), ('N', 'n'), ('O', 'o'), ('P', 'p'), ('Q', 'q'), ('R', 'r'),
   ('S', 's'), ('T', 't'), ('U', 'u'), ('V', 'v'), ('W', 'w'), ('X', 'x'),
   ('Y', 'y'), ('Z', 'z')]

/-- Python str.lower on one character (ASCII scope). -/
def py_lower_char (c : Char) : Char :=
  match lower_map.find? (fun p => p.1 == c) with
  | some p => p.2
  | none => c

/-- Python str.lower on a string. -/
def py_lower (s : List Char) : List Char := s.map py_lower_char

/-- Greedy consumption of the regex \s* : drop leading whitespace. -/
def skip_ws : List Char → List Char
  | [] => []
  | c :: cs => if is_ws c then skip_ws cs else c :: cs

/-- Python str.strip: remove leading and trailing whitespace. -/
def py_strip (s : List Char) : List Char :=
  ((s.dropWhile is_ws).reverse.dropWhile is_ws).reverse

/-- Model of re.sub applied with a whitespace-run pattern and empty
replacement: remove every whitespace character. -/
def remove_ws (s : List Char) : List Char := s.filter (fun c => !(is_ws c))

/-- Test whether the second list starts with the first. -/
def starts_with : List Char → List Char → Bool
  | [], _ => true
  | _ :: _, [] => false
  | p :: ps, c :: cs => p == c && starts_with ps cs

/-- Prefix of a string before the first occurrence of a nonempty separator:
Python s.split(sep)[0]. -/
def split_first (sep : List Char) : List Char → List Char
  | [] => []
  | c :: cs => if starts_with sep (c :: cs) then [] else c :: split_first sep cs

/-- Python str.split on the newline character. -/
def split_nl : List Char → List (List Char)
  | [] => [[]]
  | c :: cs =>
    if c = '\n' then [] :: split_nl cs
    else
      match split_nl cs with
      | [] => [[c]]
      | l :: ls => (c :: l) :: ls

/-- Consume n repetitions of ([🟥🟨🟩]\s*): one glyph then optional whitespace
each time.  Returns the remaining input on success. -/
def match_glyphs : Nat → List Char → Option (List Char)
  | 0, s => some s
  | _ + 1, [] => none
  | n + 1, c :: cs => if is_emoji_char c then match_glyphs n (skip_ws cs) else none

/-- Consume exactly n characters of a class, returning the captured group and
the rest of the input. -/
def match_chars (p : Char → Bool) : Nat → List Char → Option (List Char × List Char)
  | 0, s => some ([], s)
  | _ + 1, [] => none
  | n + 1, c :: cs =>
    if p c then
      match match_chars p n cs with
      | some r => some (c :: r.1, r.2)
      | none => none
    else none

/-- Consume the literal \*\* of the markup-bold pattern. -/
def match_stars : List Char → Option (List Char)
  | a :: b :: rest => if a = '*' ∧ b = '*' then some rest else none
  | _ => none

/-- Match the pattern ([🟥🟨🟩]\s*){5}\s*([𝗔-𝗭]{5}) at the start of the input,
returning group 2.  The whitespace stars never backtrack usefully here because
the atoms that follow them are never whitespace, so greedy consumption is
exact. -/
def match_math_bold_at (s : List Char) : Option (List Char) :=
  match match_glyphs 5 s with
  | none => none
  | some r =>
    match match_chars is_math_bold 5 (skip_ws r) with
    | none => none
    | some cr => some cr.1

/-- re.search for the math-bold pattern: leftmost starting position wins. -/
def search_math_bold : List Char → Option (List Char)
  | [] => none
  | c :: cs =>
    match match_math_bold_at (c :: cs) with
    | some w => some w
    | none => search_math_bold cs

/-- Match ([🟥🟨🟩]\s*){5}\s*\*\*([a-zA-Z]{5})\*\* at the start of the input,
returning group 2. -/
def match_markup_at (s : List Char) : Option (List Char) :=
  match match_glyphs 5 s with
  | none => none
  | some r =>
    match match_stars (skip_ws r) with
    | none => none
    | some r2 =>
      match match_chars is_ascii_letter 5 r2 with
      | none => none
      | some cr =>
        match match_stars cr.2 with
        | none => none
        | some _ => some cr.1

/-- re.search for the markup-bold pattern. -/
def search_markup : List Char → Option (List Char)
  | [] => none
  | c :: cs =>
    match match_markup_at (c :: cs) with
    | some w => some w
    | none => search_markup cs

/-- Match ([a-zA-Z]{5})\s*([🟥🟨🟩]{5}) at the start of the input, returning
groups 1 and 2. -/
def match_legacy_at (s : List Char) : Option (List Char × List Char) :=
  match match_chars is_ascii_letter 5 s with
  | none => none
  | some wr =>
    match match_chars is_emoji_char 5 (skip_ws wr.2) with
    | none => none
    | some er => some (wr.1, er.1)

/-- re.search for the legacy pattern. -/
def search_legacy : List Char → Option (List Char × List Char)
  | [] => none
  | c :: cs =>
    match match_legacy_at (c :: cs) with
    | some we => some we
    | none => search_legacy cs

/-- Translation of parse_guess (src/main.py lines 34-84).  The three encodings
are tried in source order; the Python failure value (None, None) is `none`. -/
def parse_guess (message : List Char) : Option (List Char × List Char) :=
  match search_math_bold message with
  | some mbw =>
    some (py_lower (convert_math_bold_to_regular mbw),
          remove_ws (py_strip (split_first mbw message)))
  | none =>
    match search_markup message with
    | some w =>
      some (py_lower w, remove_ws (py_strip (split_first ['*', '*'] message)))
    | none =>
      match search_legacy message with
      | some we => some (py_lower we.1, we.2)
      | none => none

/-- Loop body of parse_multiple_guesses (src/main.py lines 91-98) for one
already-stripped line: skip blanks, parse, keep the result when both
components are truthy (nonempty). -/
def line_clue (line : List Char) : Option (List Char × List Char) :=
  if line = [] then none
  else
    match parse_guess line with
    | some (w, e) => if w ≠ [] ∧ e ≠ [] then some (w, e) else none
    | none => none

/-- Strip each line and collect the parsed clues in line order. -/
def process_lines (ls : List (List Char)) : List (List Char × List Char) :=
  (ls.map py_strip).filterMap line_clue

/-- Translation of parse_multiple_guesses (src/main.py lines 86-100): strip the
message, split on newlines, strip each line, skip blanks, parse each line and
keep the results whose two components are truthy (nonempty). -/
def parse_multiple_guesses (message : List Char) : List (List Char × List Char) :=
  process_lines (split_nl (py_strip message))

/-- Per-position test from the loop body of filter_words_by_clues
(src/main.py lines 111-123): green demands equality at the position, yellow
demands presence elsewhere, red demands absence; any other character imposes
no constraint. -/
def pos_ok (word : List Char) (i : Nat) (guess_char emoji : Char) : Bool :=
  if emoji = '🟩' then word.getD i ' ' == guess_char
  else if emoji = '🟨' then
    word.contains guess_char && !(word.getD i ' ' == guess_char)
  else if emoji = '🟥' then !(word.contains guess_char)
  else true

/-- Loop over zip(guess_word, emoji_result) with a running index, as in
src/main.py line 111; the zip stops at the shorter list. -/
def clue_check (word : List Char) : Nat → List Char → List Char → Bool
  | _, [], _ => true
  | _, _ :: _, [] => true
  | i, g :: gs, e :: es => pos_ok word i g e && clue_check word (i + 1) gs es

/-- Translation of word_matches_clue (src/main.py lines 151-163), which is also
the per-clue body of filter_words_by_clues. -/
def word_matches_clue (word guess_word emoji_result : List Char) : Bool :=
  clue_check word 0 guess_word emoji_result

/-- Translation of filter_words_by_clues (src/main.py lines 102-131): keep the
words that satisfy every position of every clue. -/
def filter_words_by_clues (words : List (List Char))
    (clues : List (List Char × List Char)) : List (List Char) :=
  words.filter (fun word => clues.all (fun c => word_matches_clue word c.1 c.2))

/-- Translation of get_letter_frequency (src/main.py lines 133-139).  The
defaultdict is represented by its lookup function: the count for c is the
number of words containing c, each word counted once via set(word). -/
def get_letter_frequency (words : List (List Char)) : Char → Nat :=
  fun c => words.countP (fun w => w.contains c)

/-- Loop of score_word with its used_letters accumulator
(src/main.py lines 144-148). -/
def score_word_go (letter_freq : Char → Nat) : List Char → List Char → Nat
  | [], _ => 0
  | c :: cs, used =>
    if used.contains c then score_word_go letter_freq cs used
    else letter_freq c + score_word_go letter_freq cs (c :: used)

/-- Translation of score_word (src/main.py lines 141-149). -/
def score_word (word : List Char) (letter_freq : Char → Nat) : Nat :=
  score_word_go letter_freq word []

/-- Python max(iterable, key=...) with first element x and remaining elements
xs: a later element replaces the current best only on a strictly greater key,
so the first maximiser is returned. -/
def py_max_by (key : List Char → Nat) (x : List Char) (xs : List (List Char)) :
    List Char :=
  xs.foldl (fun best y => if key best < key y then y else best) x

/-- Translation of get_best_guess (src/main.py lines 165-178). -/
def get_best_guess (words : List (List Char)) : Option (List Char) :=
  match words with
  | [] => none
  | [w] => some w
  | w :: ws =>
    some (py_max_by (fun v => score_word v (get_letter_frequency (w :: ws))) w ws)

/-- Kind of reply sent by handle_guess; the formatted reply text is abstracted
to which branch produced it. -/
inductive ReplyKind
  | formatError
  | noMatch
  | found
  | suggest
deriving DecidableEq

/-- State-relevant translation of handle_guess (src/main.py lines 309-337 and
the following response logic): batch parse, fall back to single-line parse
with the Python truthiness test, append the parsed clues to the session, then
reply according to the filtered candidate set.  The reply text is abstracted
to its `ReplyKind`. -/
def handle_guess (word_list : List (List Char))
    (session : List (List Char × List Char)) (message : List Char) :
    List (List Char × List Char) × ReplyKind :=
  let guesses := parse_multiple_guesses message
  let gs : Option (List (List Char × List Char)) :=
    if guesses = [] then
      match parse_guess message with
      | some (w, e) => if w ≠ [] ∧ e ≠ [] then some [(w, e)] else none
      | none => none
    else some guesses
  match gs with
  | none => (session, ReplyKind.formatError)
  | some gs' =>
    let session' := session ++ gs'
    let remaining := filter_words_by_clues word_list session'
    if remaining = [] then (session', ReplyKind.noMatch)
    else if remaining.length = 1 then (session', ReplyKind.found)
    else (session', ReplyKind.suggest)

/-- Claim-side per-position constraint, following the words of spec section
4.3 and claim C1, with Correct = 🟩, Present = 🟨 and Absent = 🟥. -/
def pos_spec (w : List Char) (i : Nat) (gc pc : Char) : Prop :=
  (pc = '🟩' → w.getD i ' ' = gc) ∧
  (pc = '🟨' → gc ∈ w ∧ w.getD i ' ' ≠ gc) ∧
  (pc = '🟥' → gc ∉ w)

/-- Claim-side score, following the words of claim C6: the sum, over the
distinct letters of w, of the number of candidate words containing that
letter at least once. -/
def distinct_letter_score (words : List (List Char)) (w : List Char) : Nat :=
  w.toFinset.sum (fun c => words.countP (fun v => v.contains c))

/-- Pattern construction described by claim C3: Correct wherever the letters
agree, Absent elsewhere. -/
def mark_pattern (w g : List Char) : List Char :=
  (w.zip g).map (fun p => if p.1 = p.2 then '🟩' else '🟥')

/-- Upper-case rendering of a letter, inverse lookup in the case table; used
only to build canonical input lines for the round-trip claims. -/
def py_upper_char (c : Char) : Char :=
  match lower_map.find? (fun p => p.2 == c) with
  | some p => p.1
  | none => c

/-- Styled rendering of a letter, used only to build canonical styled-glyph
lines for claim C7. -/
def to_math_bold (c : Char) : Char :=
  match math_bold_map.find? (fun p => p.2 == py_upper_char c) with
  | some p => p.1
  | none => c

/-- Canonical styled-glyph line: five glyphs separated by single spaces, one
space, then the styled word. -/
def render_styled (e0 e1 e2 e3 e4 c0 c1 c2 c3 c4 : Char) : List Char :=
  [e0, ' ', e1, ' ', e2, ' ', e3, ' ', e4, ' ',
   to_math_bold c0, to_math_bold c1, to_math_bold c2, to_math_bold c3,
   to_math_bold c4]

/-- Canonical markup-bold line: five glyphs separated by single spaces, one
space, then the upper-cased word wrapped in double asterisks. -/
def render_markup (e0 e1 e2 e3 e4 c0 c1 c2 c3 c4 : Char) : List Char :=
  [e0, ' ', e1, ' ', e2, ' ', e3, ' ', e4, ' ', '*', '*',
   py_upper_char c0, py_upper_char c1, py_upper_char c2, py_upper_char c3,
   py_upper_char c4, '*', '*']

/-- Canonical legacy line: the upper-cased word, one space, then five
contiguous glyphs. -/
def render_legacy (e0 e1 e2 e3 e4 c0 c1 c2 c3 c4 : Char) : List Char :=
  [py_upper_char c0, py_upper_char c1, py_upper_char c2, py_upper_char c3,
   py_upper_char c4, ' ', e0, e1, e2, e3, e4]

/-- Claim-side batch pipeline exactly as claim C8 words it: split on line
boundaries, trim each line, skip blank lines, apply the single-line parser and
keep every success in line order. -/
def batch_pipeline_claim (message : List Char) : List (List Char × List Char) :=
  ((split_nl message).map py_strip).filterMap (fun line =>
    if line = [] then none else parse_guess line)

/-- Amended batch pipeline: as the claim, except that a success whose word or
pattern component is empty is also dropped (the Python truthiness test). -/
def batch_pipeline_amended (message : List Char) : List (List Char × List Char) :=
  process_lines (split_nl message)

/-- Helper for reasoning about split_nl on an appended character: append a
character to the last line. -/
def append_to_last (c : Char) : List (List Char) → List (List Char)
  | [] => [[c]]
  | [l] => [l ++ [c]]
  | l :: ls => l :: append_to_last c ls

/-- Removal of trailing whitespace only; py_strip is this composed with
leading-whitespace removal. -/
def drop_trailing (s : List Char) : List Char :=
  (s.reverse.dropWhile is_ws).reverse

/-! ## Generic helper lemmas -/

theorem contains_iff_mem {l : List Char} {c : Char} : l.contains c = true ↔ c ∈ l :=
  List.elem_iff

theorem length_five {α : Type} {l : List α} (h : l.length = 5) :
    ∃ a b c d e, l = [a, b, c, d, e] := by
  match l with
  | [a, b, c, d, e] => exact ⟨a, b, c, d, e, rfl⟩
  | [] | [_] | [_, _] | [_, _, _] | [_, _, _, _] => simp at h
  | _ :: _ :: _ :: _ :: _ :: _ :: _ => simp at h

/-! ## Constraint filter: claims C1, C3, C4, C5 -/

theorem pos_ok_iff (w : List Char) (i : Nat) (gc : Char) {pc : Char}
    (h : pc ∈ emoji_chars) : pos_ok w i gc pc = true ↔ pos_spec w i gc pc := by
  have d1 : ('🟥' : Char) ≠ '🟩' := by decide
  have d2 : ('🟥' : Char) ≠ '🟨' := by decide
  have d3 : ('🟨' : Char) ≠ '🟩' := by decide
  rcases show pc = '🟥' ∨ pc = '🟨' ∨ pc = '🟩' by
      simpa [emoji_chars] using h with rfl | rfl | rfl
  · simp [pos_ok, pos_spec, d1, d2, contains_iff_mem]
  · simp [pos_ok, pos_spec, d3, contains_iff_mem]
  · simp [pos_ok, pos_spec, d1.symm, d3.symm]

theorem clue_check_iff (w : List Char) :
    ∀ (g p : List Char) (i : Nat), (∀ pc ∈ p, pc ∈ emoji_chars) →
      (clue_check w i g p = true ↔
        ∀ j, j < min g.length p.length →
          pos_spec w (i + j) (g.getD j ' ') (p.getD j ' '))
  | [], p, i, hp => by simp [clue_check]
  | _ :: _, [], i, hp => by simp [clue_check]
  | g :: gs, pc :: ps, i, hp => by
    have hhead : pc ∈ emoji_chars := hp pc (by simp)
    have htail : ∀ x ∈ ps, x ∈ emoji_chars := fun x hx => hp x (by simp [hx])
    rw [show clue_check w i (g :: gs) (pc :: ps) =
        (pos_ok w i g pc && clue_check w (i + 1) gs ps) from rfl,
      Bool.and_eq_true, pos_ok_iff w i g hhead,
      clue_check_iff w gs ps (i + 1) htail]
    constructor
    · rintro ⟨h1, h2⟩ j hj
      cases j with
      | zero => simpa using h1
      | succ k =>
        have hk : k < min gs.length ps.length := by
          simp only [List.length_cons, Nat.succ_min_succ] at hj
          omega
        have hidx : i + 1 + k = i + (k + 1) := by omega
        simpa [List.getD_cons_succ, hidx] using h2 k hk
    · intro hall
      refine ⟨?_, ?_⟩
      · have := hall 0 (by simp only [List.length_cons, Nat.succ_min_succ]; omega)
        simpa using this
      · intro k hk
        have hidx : i + 1 + k = i + (k + 1) := by omega
        have := hall (k + 1)
          (by simp only [List.length_cons, Nat.succ_min_succ]; omega)
        simpa [List.getD_cons_succ, hidx] using this

/-- C1: a word w from the candidate list is in the output of
filter_words_by_clues iff, for every clue (g, p) and every position i in 0..4,
the green / yellow / red per-position rule of spec section 4.3 holds
(per-occurrence rule, not multiset-aware). -/
theorem claim_C1 (words : List (List Char)) (clues : List (List Char × List Char))
    (w : List Char)
    (hc : ∀ c ∈ clues, c.1.length = 5 ∧ c.2.length = 5 ∧ ∀ pc ∈ c.2, pc ∈ emoji_chars) :
    w ∈ filter_words_by_clues words clues ↔
      w ∈ words ∧ ∀ c ∈ clues, ∀ i, i < 5 →
        pos_spec w i (c.1.getD i ' ') (c.2.getD i ' ') := by
  unfold filter_words_by_clues
  rw [List.mem_filter, List.all_eq_true]
  constructor
  · rintro ⟨hw, hall⟩
    refine ⟨hw, fun c hcm i hi => ?_⟩
    obtain ⟨h1, h2, h3⟩ := hc c hcm
    have hcc := (clue_check_iff w c.1 c.2 0 h3).mp (hall c hcm)
    have := hcc i (by rw [h1, h2]; simpa using hi)
    simpa using this
  · rintro ⟨hw, hspec⟩
    refine ⟨hw, fun c hcm => ?_⟩
    obtain ⟨h1, h2, h3⟩ := hc c hcm
    rw [word_matches_clue, clue_check_iff w c.1 c.2 0 h3]
    intro j hj
    rw [h1, h2] at hj
    have hj5 : j < 5 := by simpa using hj
    simpa using hspec c hcm j hj5

/-- Witness for claim C1 at a concrete corpus and clue list. -/
theorem claim_C1_witness :
    "crane".toList ∈ filter_words_by_clues ["crane".toList, "slate".toList]
        [("slate".toList, "🟥🟥🟨🟨🟩".toList)] ↔
      "crane".toList ∈ ["crane".toList, "slate".toList] ∧
        ∀ c ∈ [(("slate".toList : List Char), ("🟥🟥🟨🟨🟩".toList : List Char))],
          ∀ i, i < 5 →
            pos_spec "crane".toList i (c.1.getD i ' ') (c.2.getD i ' ') :=
  claim_C1 _ _ _ (by decide)

theorem mark_pattern_mem {w g : List Char} {pc : Char}
    (h : pc ∈ mark_pattern w g) : pc ∈ emoji_chars := by
  simp only [mark_pattern, List.mem_map] at h
  obtain ⟨p, -, rfl⟩ := h
  by_cases hpq : p.1 = p.2 <;> simp [hpq, emoji_chars]

theorem mark_pattern_getD :
    ∀ (w g : List Char) (j : Nat), j < w.length → j < g.length →
      (mark_pattern w g).getD j ' ' =
        if w.getD j ' ' = g.getD j ' ' then '🟩' else '🟥'
  | [], _, j, hw, _ => by simp at hw
  | _ :: _, [], j, _, hg => by simp at hg
  | a :: w, b :: g, 0, _, _ => by simp [mark_pattern]
  | a :: w, b :: g, j + 1, hw, hg => by
    have hw' : j < w.length := by simpa using hw
    have hg' : j < g.length := by simpa using hg
    simpa [mark_pattern, List.getD_cons_succ] using mark_pattern_getD w g j hw' hg'

theorem mark_pattern_length (w g : List Char) :
    (mark_pattern w g).length = min w.length g.length := by
  simp [mark_pattern]

/-- C3 fails on the code: with w = "lemma" and g = "mzzzz" the generated
pattern marks the first position Absent for the letter m, which occurs
elsewhere in w, so the per-occurrence Absent rule rejects w itself. -/
theorem claim_C3_counterexample :
    filter_words_by_clues ["lemma".toList]
        [("mzzzz".toList, mark_pattern "lemma".toList "mzzzz".toList)] ≠
      ["lemma".toList] := by decide

/-- C3 amended: if additionally every position marked Absent carries a guess
letter that occurs nowhere in w (equivalently: at every position, either the
letters agree or the guess letter is absent from w), then filtering the
singleton set by the generated clue returns the singleton. -/
theorem claim_C3 (w g : List Char) (hw : w.length = 5) (hg : g.length = 5)
    (h : ∀ i, i < 5 → w.getD i ' ' = g.getD i ' ' ∨ g.getD i ' ' ∉ w) :
    filter_words_by_clues [w] [(g, mark_pattern w g)] = [w] := by
  have hmc : word_matches_clue w g (mark_pattern w g) = true := by
    rw [word_matches_clue, clue_check_iff w g (mark_pattern w g) 0
      (fun pc hpc => mark_pattern_mem hpc)]
    intro j hj
    have hj5 : j < 5 := by
      rw [hg, mark_pattern_length, hw, hg] at hj
      simpa using lt_of_lt_of_le hj (by simp)
    have hmp := mark_pattern_getD w g j (by omega) (by omega)
    by_cases heq : w.getD j ' ' = g.getD j ' '
    · rw [hmp, if_pos heq]
      refine ⟨fun _ => ?_, fun habs => ?_, fun habs => ?_⟩
      · simpa using heq
      · exact absurd habs (by decide)
      · exact absurd habs (by decide)
    · rw [hmp, if_neg heq]
      have hnot : g.getD j ' ' ∉ w := by
        rcases h j hj5 with h' | h'
        · exact absurd h' heq
        · exact h'
      refine ⟨fun habs => ?_, fun habs => ?_, fun _ => ?_⟩
      · exact absurd habs (by decide)
      · exact absurd habs (by decide)
      · simpa using hnot
  simp [filter_words_by_clues, hmc]

/-- Witness for the amended claim C3 with w = g = "crane". -/
theorem claim_C3_witness :
    filter_words_by_clues ["crane".toList]
        [("crane".toList, mark_pattern "crane".toList "crane".toList)] =
      ["crane".toList] :=
  claim_C3 _ _ (by decide) (by decide) (by decide)

theorem all_perm {l₁ l₂ : List (List Char × List Char)} (h : l₁.Perm l₂)
    (f : List Char × List Char → Bool) : l₁.all f = l₂.all f := by
  rw [Bool.eq_iff_iff, List.all_eq_true, List.all_eq_true]
  exact ⟨fun H x hx => H x (h.mem_iff.mpr hx), fun H x hx => H x (h.mem_iff.mp hx)⟩

/-- C4: permuting the clue list never changes the filter result (here proved
as equality of the result lists, which is stronger than equality of sets). -/
theorem claim_C4 (words : List (List Char))
    {clues₁ clues₂ : List (List Char × List Char)} (h : clues₁.Perm clues₂) :
    filter_words_by_clues words clues₁ = filter_words_by_clues words clues₂ := by
  unfold filter_words_by_clues
  exact List.filter_congr (fun w _ => all_perm h _)

/-- Witness for claim C4 with a two-clue list and its transposition. -/
theorem claim_C4_witness :
    filter_words_by_clues ["cliff".toList, "fairy".toList]
        [("lamar".toList, "🟨🟩🟥🟥🟨".toList),
         ("cliff".toList, "🟥🟨🟥🟥🟩".toList)] =
      filter_words_by_clues ["cliff".toList, "fairy".toList]
        [("cliff".toList, "🟥🟨🟥🟥🟩".toList),
         ("lamar".toList, "🟨🟩🟥🟥🟨".toList)] :=
  claim_C4 _ (List.Perm.swap _ _ _)

/-- C5: the constraint filter is idempotent. -/
theorem claim_C5 (words : List (List Char))
    (clues : List (List Char × List Char)) :
    filter_words_by_clues (filter_words_by_clues words clues) clues =
      filter_words_by_clues words clues := by
  unfold filter_words_by_clues
  rw [List.filter_filter]
  exact List.filter_congr (fun w _ => by rw [Bool.and_self])

/-! ## Scorer: claims C6 and C10 -/

theorem score_word_go_eq (freq : Char → Nat) :
    ∀ (w used : List Char),
      score_word_go freq w used = (w.toFinset \ used.toFinset).sum freq
  | [], used => by simp [score_word_go]
  | c :: cs, used => by
    by_cases hc : c ∈ used
    · have hcb : used.contains c = true := contains_iff_mem.mpr hc
      rw [show score_word_go freq (c :: cs) used =
          (if used.contains c then score_word_go freq cs used
           else freq c + score_word_go freq cs (c :: used)) from rfl]
      rw [if_pos hcb, score_word_go_eq freq cs used, List.toFinset_cons,
        Finset.insert_sdiff_of_mem _ (List.mem_toFinset.mpr hc)]
    · have hcb : used.contains c = false := by
        rw [← Bool.not_eq_true, contains_iff_mem]; exact hc
      rw [show score_word_go freq (c :: cs) used =
          (if used.contains c then score_word_go freq cs used
           else freq c + score_word_go freq cs (c :: used)) from rfl]
      rw [hcb, if_neg (by simp), score_word_go_eq freq cs (c :: used),
        List.toFinset_cons, List.toFinset_cons,
        Finset.sdiff_insert,
        Finset.insert_sdiff_of_not_mem _ (by simpa using hc)]
      set S := cs.toFinset \ used.toFinset with hS
      have hins : insert c S = insert c (S.erase c) := by
        by_cases hcS : c ∈ S
        · rw [Finset.insert_erase hcS, Finset.insert_eq_self.mpr hcS]
        · rw [Finset.erase_eq_of_not_mem hcS]
      rw [hins, Finset.sum_insert (Finset.not_mem_erase c S)]

theorem score_word_eq (words : List (List Char)) (w : List Char) :
    score_word w (get_letter_frequency words) = distinct_letter_score words w := by
  rw [score_word, score_word_go_eq]
  simp [distinct_letter_score, get_letter_frequency]

theorem py_max_by_mem (key : List Char → Nat) :
    ∀ (xs : List (List Char)) (x : List Char), py_max_by key x xs ∈ x :: xs := by
  intro xs
  induction xs with
  | nil => intro x; simp [py_max_by]
  | cons y ys ih =>
    intro x
    have h := ih (if key x < key y then y else x)
    rw [show py_max_by key x (y :: ys) =
        py_max_by key (if key x < key y then y else x) ys from rfl]
    rcases List.mem_cons.mp h with h1 | h1
    · rw [h1]
      by_cases hxy : key x < key y
      · simp [hxy]
      · simp [hxy]
    · exact List.mem_cons_of_mem _ (List.mem_cons_of_mem _ h1)

theorem py_max_by_ge (key : List Char → Nat) :
    ∀ (xs : List (List Char)) (x z : List Char), z ∈ x :: xs →
      key z ≤ key (py_max_by key x xs) := by
  intro xs
  induction xs with
  | nil =>
    intro x z hz
    have : z = x := by simpa using hz
    simp [py_max_by, this]
  | cons y ys ih =>
    intro x z hz
    rw [show py_max_by key x (y :: ys) =
        py_max_by key (if key x < key y then y else x) ys from rfl]
    have hstep : key (if key x < key y then y else x) ≤
        key (py_max_by key (if key x < key y then y else x) ys) :=
      ih _ _ (List.mem_cons_self _ _)
    rcases List.mem_cons.mp hz with rfl | hz'
    · refine le_trans ?_ hstep
      by_cases hxy : key z < key y
      · simp [hxy]; omega
      · simp [hxy]
    · rcases List.mem_cons.mp hz' with rfl | hz''
      · refine le_trans ?_ hstep
        by_cases hxy : key x < key z
        · simp [hxy]
        · simp [hxy]; omega
      · exact ih _ _ (List.mem_cons_of_mem _ hz'')

/-- C6: on a nonempty candidate list, get_best_guess returns a member whose
distinct-letter frequency score (the sum, over distinct letters, of the count
of candidate words containing that letter) is maximal, and a singleton
candidate list returns its member directly. -/
theorem claim_C6 (words : List (List Char)) (h : words ≠ []) :
    ∃ b, get_best_guess words = some b ∧ b ∈ words ∧
      (∀ w ∈ words, distinct_letter_score words w ≤ distinct_letter_score words b) ∧
      ∀ w, words = [w] → b = w := by
  match words with
  | [] => exact absurd rfl h
  | [w] =>
    refine ⟨w, rfl, by simp, ?_, ?_⟩
    · intro w' hw'
      have : w' = w := by simpa using hw'
      rw [this]
    · intro w' hw'
      have : w = w' := by simpa using hw'
      exact this
  | w :: v :: ws =>
    refine ⟨py_max_by (fun u => score_word u (get_letter_frequency (w :: v :: ws)))
        w (v :: ws), rfl,
      py_max_by_mem _ (v :: ws) w, ?_, ?_⟩
    · intro w' hw'
      have hge := py_max_by_ge
        (fun u => score_word u (get_letter_frequency (w :: v :: ws)))
        (v :: ws) w w' hw'
      calc distinct_letter_score (w :: v :: ws) w'
          = score_word w' (get_letter_frequency (w :: v :: ws)) :=
            (score_word_eq _ _).symm
        _ ≤ score_word
              (py_max_by (fun u => score_word u (get_letter_frequency (w :: v :: ws)))
                w (v :: ws))
              (get_letter_frequency (w :: v :: ws)) := hge
        _ = distinct_letter_score (w :: v :: ws)
              (py_max_by (fun u => score_word u (get_letter_frequency (w :: v :: ws)))
                w (v :: ws)) := score_word_eq _ _
    · intro w' hw'
      simp at hw'

/-- Witness for claim C6 on a concrete two-word candidate list. -/
theorem claim_C6_witness :
    ∃ b, get_best_guess ["crane".toList, "cocoa".toList] = some b ∧
      b ∈ ["crane".toList, "cocoa".toList] ∧
      (∀ w ∈ ["crane".toList, "cocoa".toList],
        distinct_letter_score ["crane".toList, "cocoa".toList] w ≤
          distinct_letter_score ["crane".toList, "cocoa".toList] b) ∧
      ∀ w, ["crane".toList, "cocoa".toList] = [w] → b = w :=
  claim_C6 _ (by decide)

/-- C10: get_best_guess on the empty candidate list is total and returns the
distinguished no-result value None. -/
theorem claim_C10 : get_best_guess [] = none := rfl

/-! ## Guess handler: claim C9 -/

/-- C9: when the batch parse yields nothing and the single-line fallback
yields no truthy clue either, handle_guess reports the format error and
returns the session unchanged. -/
theorem claim_C9 (word_list : List (List Char))
    (session : List (List Char × List Char)) (message : List Char)
    (h1 : parse_multiple_guesses message = [])
    (h2 : ∀ w e, parse_guess message = some (w, e) → w = [] ∨ e = []) :
    handle_guess word_list session message = (session, ReplyKind.formatError) := by
  unfold handle_guess
  rw [h1]
  cases hp : parse_guess message with
  | none => simp [hp]
  | some we =>
    obtain ⟨w, e⟩ := we
    rcases h2 w e hp with h | h <;> simp [hp, h]

/-- Witness for claim C9: an inbound message with no clue in it. -/
theorem claim_C9_witness :
    handle_guess ["crane".toList] [("crane".toList, "🟩🟩🟩🟩🟩".toList)]
        "hello".toList =
      ([("crane".toList, "🟩🟩🟩🟩🟩".toList)], ReplyKind.formatError) :=
  claim_C9 _ _ _ (by decide)
    (by
      have hn : parse_guess "hello".toList = none := by decide
      intro w e hsome
      rw [hn] at hsome
      cases hsome)

/-! ## Character class facts, all decided by enumeration -/

theorem emoji_is_emoji : ∀ c ∈ emoji_chars, is_emoji_char c = true := by decide

theorem emoji_not_ws : ∀ c ∈ emoji_chars, is_ws c = false := by decide

theorem emoji_not_math_bold : ∀ c ∈ emoji_chars, is_math_bold c = false := by decide

theorem star_ne_emoji : ∀ e ∈ emoji_chars, (('*' : Char) == e) = false := by decide

theorem mb_is_math_bold : ∀ c ∈ lower_letters,
    is_math_bold (to_math_bold c) = true := by decide

theorem mb_not_ws : ∀ c ∈ lower_letters, is_ws (to_math_bold c) = false := by decide

theorem mb_ne_emoji : ∀ c ∈ lower_letters, ∀ e ∈ emoji_chars,
    (to_math_bold c == e) = false := by decide

theorem mb_ne_space : ∀ c ∈ lower_letters, (to_math_bold c == ' ') = false := by
  decide

theorem mb_regular_lower : ∀ c ∈ lower_letters,
    py_lower_char (math_bold_to_regular (to_math_bold c)) = c := by decide

theorem upper_is_alpha : ∀ c ∈ lower_letters,
    is_ascii_letter (py_upper_char c) = true := by decide

theorem upper_not_ws : ∀ c ∈ lower_letters, is_ws (py_upper_char c) = false := by
  decide

theorem upper_not_emoji : ∀ c ∈ lower_letters,
    is_emoji_char (py_upper_char c) = false := by decide

theorem upper_not_math_bold : ∀ c ∈ lower_letters,
    is_math_bold (py_upper_char c) = false := by decide

theorem upper_ne_star : ∀ c ∈ lower_letters, py_upper_char c ≠ '*' := by decide

theorem upper_lower : ∀ c ∈ lower_letters,
    py_lower_char (py_upper_char c) = c := by decide

theorem mb_class_lower : ∀ c ∈ math_bold_letters,
    py_lower_char (math_bold_to_regular c) ∈ lower_letters := by decide

theorem alpha_lower : ∀ c ∈ ascii_letters,
    py_lower_char c ∈ lower_letters := by decide

/-! ## Soundness of the matchers -/

theorem skip_ws_mem {s : List Char} {c : Char} (h : c ∈ skip_ws s) : c ∈ s := by
  induction s with
  | nil => simp [skip_ws] at h
  | cons a as ih =>
    simp only [skip_ws] at h
    split at h
    · exact List.mem_cons_of_mem _ (ih h)
    · exact h

theorem match_glyphs_mem :
    ∀ {n : Nat} {s r : List Char}, match_glyphs n s = some r → ∀ c ∈ r, c ∈ s := by
  intro n
  induction n with
  | zero =>
    intro s r h c hc
    simp only [match_glyphs, Option.some.injEq] at h
    rw [h]; exact hc
  | succ k ih =>
    intro s r h c hc
    match s with
    | [] => simp [match_glyphs] at h
    | a :: as =>
      simp only [match_glyphs] at h
      split at h
      · exact List.mem_cons_of_mem _ (skip_ws_mem (ih h c hc))
      · cases h

theorem match_chars_eq (p : Char → Bool) :
    ∀ {n : Nat} {s cap rest : List Char},
      match_chars p n s = some (cap, rest) →
      cap.length = n ∧ (∀ c ∈ cap, p c = true) ∧ s = cap ++ rest := by
  intro n
  induction n with
  | zero =>
    intro s cap rest h
    simp only [match_chars, Option.some.injEq, Prod.mk.injEq] at h
    obtain ⟨h1, h2⟩ := h
    subst h1; subst h2
    exact ⟨rfl, by simp, rfl⟩
  | succ k ih =>
    intro s cap rest h
    match s with
    | [] => simp [match_chars] at h
    | a :: as =>
      simp only [match_chars] at h
      split at h
      case isTrue ha =>
        split at h
        case h_1 r hm =>
          obtain ⟨cap', rest'⟩ := r
          simp only [Option.some.injEq, Prod.mk.injEq] at h
          obtain ⟨h1, h2⟩ := h
          subst h1; subst h2
          obtain ⟨ih1, ih2, ih3⟩ := ih hm
          refine ⟨by simp [ih1], ?_, by simp [ih3]⟩
          intro c hc
          rcases List.mem_cons.mp hc with rfl | hc'
          · exact ha
          · exact ih2 c hc'
        case h_2 => cases h
      case isFalse => cases h

theorem match_stars_eq :
    ∀ {s r : List Char}, match_stars s = some r → s = '*' :: '*' :: r := by
  intro s r h
  match s with
  | [] => simp [match_stars] at h
  | [a] => simp [match_stars] at h
  | a :: b :: rest =>
    simp only [match_stars] at h
    split at h
    case isTrue hab =>
      simp only [Option.some.injEq] at h
      rw [hab.1, hab.2, h]
    case isFalse => cases h

theorem match_math_bold_at_some {s w : List Char}
    (h : match_math_bold_at s = some w) :
    w.length = 5 ∧ ∀ c ∈ w, is_math_bold c = true ∧ c ∈ s := by
  unfold match_math_bold_at at h
  split at h
  case h_1 => cases h
  case h_2 r hg =>
    split at h
    case h_1 => cases h
    case h_2 cr hm =>
      obtain ⟨cap, rest⟩ := cr
      simp only [Option.some.injEq] at h
      subst h
      obtain ⟨h1, h2, h3⟩ := match_chars_eq is_math_bold hm
      refine ⟨h1, fun c hc => ⟨h2 c hc, ?_⟩⟩
      have hc' : c ∈ skip_ws r := by
        rw [h3]; exact List.mem_append_left _ hc
      exact match_glyphs_mem hg c (skip_ws_mem hc')

theorem search_math_bold_some :
    ∀ {s w : List Char}, search_math_bold s = some w →
      w.length = 5 ∧ ∀ c ∈ w, is_math_bold c = true ∧ c ∈ s := by
  intro s
  induction s with
  | nil => intro w h; simp [search_math_bold] at h
  | cons a as ih =>
    intro w h
    simp only [search_math_bold] at h
    split at h
    case h_1 w' hm =>
      simp only [Option.some.injEq] at h
      subst h
      exact match_math_bold_at_some hm
    case h_2 =>
      obtain ⟨h1, h2⟩ := ih h
      exact ⟨h1, fun c hc => ⟨(h2 c hc).1, List.mem_cons_of_mem _ (h2 c hc).2⟩⟩

theorem search_math_bold_none_of {s : List Char}
    (h : ∀ c ∈ s, is_math_bold c = false) : search_math_bold s = none := by
  cases hs : search_math_bold s with
  | none => rfl
  | some w =>
    exfalso
    obtain ⟨h1, h2⟩ := search_math_bold_some hs
    obtain ⟨c, hc⟩ := List.exists_mem_of_ne_nil w
      (by intro hw; rw [hw] at h1; simp at h1)
    have hcm := h2 c hc
    have := h c hcm.2
    rw [hcm.1] at this
    cases this

theorem match_markup_at_some {s w : List Char}
    (h : match_markup_at s = some w) :
    w.length = 5 ∧ (∀ c ∈ w, is_ascii_letter c = true) ∧ '*' ∈ s := by
  unfold match_markup_at at h
  split at h
  case h_1 => cases h
  case h_2 r hg =>
    split at h
    case h_1 => cases h
    case h_2 r2 hst =>
      split at h
      case h_1 => cases h
      case h_2 cr hm =>
        obtain ⟨cap, r3⟩ := cr
        split at h
        case h_1 => cases h
        case h_2 r4 hst2 =>
          simp only [Option.some.injEq] at h
          subst h
          obtain ⟨h1, h2, -⟩ := match_chars_eq is_ascii_letter hm
          refine ⟨h1, h2, ?_⟩
          have hstar : '*' ∈ skip_ws r := by
            rw [match_stars_eq hst]; simp
          exact match_glyphs_mem hg _ (skip_ws_mem hstar)

theorem search_markup_some :
    ∀ {s w : List Char}, search_markup s = some w →
      w.length = 5 ∧ (∀ c ∈ w, is_ascii_letter c = true) ∧ '*' ∈ s := by
  intro s
  induction s with
  | nil => intro w h; simp [search_markup] at h
  | cons a as ih =>
    intro w h
    simp only [search_markup] at h
    split at h
    case h_1 w' hm =>
      simp only [Option.some.injEq] at h
      subst h
      exact match_markup_at_some hm
    case h_2 =>
      obtain ⟨h1, h2, h3⟩ := ih h
      exact ⟨h1, h2, List.mem_cons_of_mem _ h3⟩

theorem search_markup_none_of {s : List Char} (h : '*' ∉ s) :
    search_markup s = none := by
  cases hs : search_markup s with
  | none => rfl
  | some w =>
    exact absurd (search_markup_some hs).2.2 h

theorem match_legacy_at_some {s w e : List Char}
    (h : match_legacy_at s = some (w, e)) :
    w.length = 5 ∧ (∀ c ∈ w, is_ascii_letter c = true) ∧
      e.length = 5 ∧ ∀ c ∈ e, is_emoji_char c = true := by
  unfold match_legacy_at at h
  split at h
  case h_1 => cases h
  case h_2 cr hm =>
    obtain ⟨cap, r⟩ := cr
    split at h
    case h_1 => cases h
    case h_2 cr2 hm2 =>
      obtain ⟨cap2, r2⟩ := cr2
      simp only [Option.some.injEq, Prod.mk.injEq] at h
      obtain ⟨h1, h2⟩ := h
      subst h1; subst h2
      obtain ⟨ha, hb, -⟩ := match_chars_eq is_ascii_letter hm
      obtain ⟨hc, hd, -⟩ := match_chars_eq is_emoji_char hm2
      exact ⟨ha, hb, hc, hd⟩

theorem search_legacy_some :
    ∀ {s w e : List Char}, search_legacy s = some (w, e) →
      w.length = 5 ∧ (∀ c ∈ w, is_ascii_letter c = true) ∧
        e.length = 5 ∧ ∀ c ∈ e, is_emoji_char c = true := by
  intro s
  induction s with
  | nil => intro w e h; simp [search_legacy] at h
  | cons a as ih =>
    intro w e h
    simp only [search_legacy] at h
    split at h
    case h_1 we hm =>
      obtain ⟨w', e'⟩ := we
      simp only [Option.some.injEq, Prod.mk.injEq] at h
      obtain ⟨h1, h2⟩ := h
      subst h1; subst h2
      exact match_legacy_at_some hm
    case h_2 =>
      exact ih h

/-! ## Claim C2: shape of parsed clues -/

/-- C2 fails on the code: on this line the styled-glyph branch matches, and
the pattern component is everything before the styled word with whitespace
removed, here six characters including the letter z. -/
theorem claim_C2_counterexample :
    parse_guess "z🟨🟩🟥🟥🟨𝗟𝗔𝗠𝗔𝗥".toList =
        some ("lamar".toList, "z🟨🟩🟥🟥🟨".toList) ∧
      ("z🟨🟩🟥🟥🟨".toList : List Char).length = 6 := by decide

/-- C2 amended: every successful parse returns a word of exactly 5 lower-case
letters, but the pattern component is guaranteed to be exactly 5 colour
symbols only when the clue is recognised via the legacy encoding (the first
two encodings take the pattern from the raw text before the word, which may
be malformed). -/
theorem claim_C2 :
    (∀ m w e : List Char, parse_guess m = some (w, e) →
      w.length = 5 ∧ ∀ c ∈ w, c ∈ lower_letters) ∧
    (∀ m w e : List Char, search_math_bold m = none → search_markup m = none →
      parse_guess m = some (w, e) →
      e.length = 5 ∧ ∀ c ∈ e, c ∈ emoji_chars) := by
  constructor
  · intro m w e h
    unfold parse_guess at h
    split at h
    case h_1 mbw h1 =>
      simp only [Option.some.injEq, Prod.mk.injEq] at h
      obtain ⟨hw, -⟩ := h
      obtain ⟨hl, hmem⟩ := search_math_bold_some h1
      subst hw
      refine ⟨by simp [py_lower, convert_math_bold_to_regular, hl], ?_⟩
      intro c hc
      simp only [py_lower, convert_math_bold_to_regular, List.map_map,
        List.mem_map] at hc
      obtain ⟨d, hd, rfl⟩ := hc
      have hdm : d ∈ math_bold_letters := contains_iff_mem.mp (hmem d hd).1
      exact mb_class_lower d hdm
    case h_2 =>
      split at h
      case h_1 w' h2 =>
        simp only [Option.some.injEq, Prod.mk.injEq] at h
        obtain ⟨hw, -⟩ := h
        obtain ⟨hl, hmem, -⟩ := search_markup_some h2
        subst hw
        refine ⟨by simp [py_lower, hl], ?_⟩
        intro c hc
        simp only [py_lower, List.mem_map] at hc
        obtain ⟨d, hd, rfl⟩ := hc
        exact alpha_lower d (contains_iff_mem.mp (hmem d hd))
      case h_2 =>
        split at h
        case h_1 we h3 =>
          obtain ⟨w', e'⟩ := we
          simp only [Option.some.injEq, Prod.mk.injEq] at h
          obtain ⟨hw, -⟩ := h
          obtain ⟨hl, hmem, -, -⟩ := search_legacy_some h3
          subst hw
          refine ⟨by simp [py_lower, hl], ?_⟩
          intro c hc
          simp only [py_lower, List.mem_map] at hc
          obtain ⟨d, hd, rfl⟩ := hc
          exact alpha_lower d (contains_iff_mem.mp (hmem d hd))
        case h_2 => cases h
  · intro m w e h1 h2 h
    unfold parse_guess at h
    simp only [h1, h2] at h
    split at h
    case h_1 we h3 =>
      obtain ⟨w', e'⟩ := we
      simp only [Option.some.injEq, Prod.mk.injEq] at h
      obtain ⟨-, he⟩ := h
      obtain ⟨-, -, hl, hmem⟩ := search_legacy_some h3
      subst he
      exact ⟨hl, fun c hc => contains_iff_mem.mp (hmem c hc)⟩
    case h_2 => cases h

/-- Witness for the amended claim C2 on a concrete legacy-encoded line. -/
theorem claim_C2_witness :
    (("lamar".toList : List Char).length = 5 ∧
      ∀ c ∈ ("lamar".toList : List Char), c ∈ lower_letters) ∧
    (("🟨🟩🟥🟥🟨".toList : List Char).length = 5 ∧
      ∀ c ∈ ("🟨🟩🟥🟥🟨".toList : List Char), c ∈ emoji_chars) :=
  ⟨claim_C2.1 "LAMAR 🟨🟩🟥🟥🟨".toList "lamar".toList "🟨🟩🟥🟥🟨".toList
      (by decide),
   claim_C2.2 "LAMAR 🟨🟩🟥🟥🟨".toList "lamar".toList "🟨🟩🟥🟥🟨".toList
      (by decide) (by decide) (by decide)⟩

/-! ## Batch parsing: claim C8 -/

theorem split_nl_ne_nil (s : List Char) : split_nl s ≠ [] := by
  match s with
  | [] => simp [split_nl]
  | c :: cs =>
    simp only [split_nl]
    split
    · simp
    · split <;> simp

theorem strip_nil : py_strip [] = [] := rfl

theorem line_clue_nil : line_clue [] = none := rfl

theorem process_cons (l : List Char) (ls : List (List Char)) :
    process_lines (l :: ls) =
      match line_clue (py_strip l) with
      | none => process_lines ls
      | some x => x :: process_lines ls := by
  simp only [process_lines, List.map_cons, List.filterMap_cons]
  cases line_clue (py_strip l) <;> rfl

theorem strip_cons_ws {c : Char} (hc : is_ws c = true) (l : List Char) :
    py_strip (c :: l) = py_strip l := by
  simp [py_strip, List.dropWhile_cons, hc]

theorem strip_append_ws {c : Char} (hc : is_ws c = true) (l : List Char) :
    py_strip (l ++ [c]) = py_strip l := by
  unfold py_strip
  rw [List.dropWhile_append]
  split
  case isTrue h =>
    have h2 : List.dropWhile is_ws l = [] := by
      cases hd : List.dropWhile is_ws l with
      | nil => rfl
      | cons x xs => rw [hd] at h; simp at h
    rw [h2]
    simp [List.dropWhile_cons, hc]
  case isFalse h =>
    rw [List.reverse_append]
    simp [List.dropWhile_cons, hc]

theorem append_to_last_cons {c : Char} {l : List Char} {ls : List (List Char)}
    (h : ls ≠ []) : append_to_last c (l :: ls) = l :: append_to_last c ls := by
  match ls with
  | [] => exact absurd rfl h
  | x :: xs => rfl

theorem process_leading :
    ∀ m : List Char,
      process_lines (split_nl (List.dropWhile is_ws m)) = process_lines (split_nl m)
  | [] => rfl
  | c :: cs => by
    by_cases hc : is_ws c = true
    · rw [List.dropWhile_cons, if_pos hc, process_leading cs]
      by_cases hnl : c = '\n'
      · subst hnl
        rw [show split_nl ('\n' :: cs) = [] :: split_nl cs by simp [split_nl],
          process_cons, strip_nil, line_clue_nil]
      · obtain ⟨l, ls, hls⟩ : ∃ l ls, split_nl cs = l :: ls := by
          cases hsp : split_nl cs with
          | nil => exact absurd hsp (split_nl_ne_nil cs)
          | cons l ls => exact ⟨l, ls, rfl⟩
        rw [show split_nl (c :: cs) = (c :: l) :: ls by
            simp [split_nl, hnl, hls],
          hls, process_cons, process_cons, strip_cons_ws hc]
    · rw [List.dropWhile_cons, if_neg hc]

theorem split_nl_append_nl :
    ∀ ms : List Char, split_nl (ms ++ ['\n']) = split_nl ms ++ [[]]
  | [] => by simp [split_nl]
  | c :: cs => by
    by_cases hnl : c = '\n'
    · subst hnl
      rw [List.cons_append,
        show split_nl ('\n' :: (cs ++ ['\n'])) = [] :: split_nl (cs ++ ['\n'])
          by simp [split_nl],
        split_nl_append_nl cs,
        show split_nl ('\n' :: cs) = [] :: split_nl cs by simp [split_nl]]
      rfl
    · obtain ⟨l, ls, hls⟩ : ∃ l ls, split_nl cs = l :: ls := by
        cases hsp : split_nl cs with
        | nil => exact absurd hsp (split_nl_ne_nil cs)
        | cons l ls => exact ⟨l, ls, rfl⟩
      rw [List.cons_append,
        show split_nl (c :: (cs ++ ['\n'])) =
          (match split_nl (cs ++ ['\n']) with
           | [] => [[c]]
           | l :: ls => (c :: l) :: ls) by simp [split_nl, hnl],
        split_nl_append_nl cs, hls,
        show split_nl (c :: cs) =
          (match split_nl cs with
           | [] => [[c]]
           | l :: ls => (c :: l) :: ls) by simp [split_nl, hnl],
        hls]
      rfl

theorem split_nl_append_last {c : Char} (hnl : c ≠ '\n') :
    ∀ ms : List Char, split_nl (ms ++ [c]) = append_to_last c (split_nl ms)
  | [] => by
    simp [split_nl, append_to_last, hnl]
  | m :: ms => by
    by_cases hm : m = '\n'
    · subst hm
      rw [List.cons_append,
        show split_nl ('\n' :: (ms ++ [c])) = [] :: split_nl (ms ++ [c])
          by simp [split_nl],
        split_nl_append_last hnl ms,
        show split_nl ('\n' :: ms) = [] :: split_nl ms by simp [split_nl],
        append_to_last_cons (split_nl_ne_nil ms)]
    · obtain ⟨l, ls, hls⟩ : ∃ l ls, split_nl ms = l :: ls := by
        cases hsp : split_nl ms with
        | nil => exact absurd hsp (split_nl_ne_nil ms)
        | cons l ls => exact ⟨l, ls, rfl⟩
      rw [List.cons_append,
        show split_nl (m :: (ms ++ [c])) =
          (match split_nl (ms ++ [c]) with
           | [] => [[m]]
           | l :: ls => (m :: l) :: ls) by simp [split_nl, hm],
        split_nl_append_last hnl ms, hls,
        show split_nl (m :: ms) =
          (match split_nl ms with
           | [] => [[m]]
           | l :: ls => (m :: l) :: ls) by simp [split_nl, hm],
        hls]
      cases ls with
      | nil => rfl
      | cons l' ls' =>
        rw [@append_to_last_cons c l (l' :: ls') (by simp),
          @append_to_last_cons c (m :: l) (l' :: ls') (by simp)]

theorem process_append_to_last {c : Char} (hc : is_ws c = true) :
    ∀ ls : List (List Char),
      process_lines (append_to_last c ls) = process_lines ls
  | [] => by
    rw [show append_to_last c [] = [[c]] from rfl, process_cons,
      strip_cons_ws hc, strip_nil, line_clue_nil]
  | [l] => by
    rw [show append_to_last c [l] = [l ++ [c]] from rfl, process_cons,
      process_cons, strip_append_ws hc]
  | l :: l' :: ls => by
    rw [show append_to_last c (l :: l' :: ls) =
        l :: append_to_last c (l' :: ls) from rfl, process_cons, process_cons,
      process_append_to_last hc (l' :: ls)]

theorem process_append_empty (ls : List (List Char)) :
    process_lines (ls ++ [[]]) = process_lines ls := by
  simp [process_lines, List.map_append, List.filterMap_append, strip_nil,
    line_clue_nil]

theorem process_trailing (m : List Char) :
    process_lines (split_nl (drop_trailing m)) = process_lines (split_nl m) := by
  induction m using List.reverseRecOn with
  | nil => rfl
  | append_singleton ms c ih =>
    by_cases hc : is_ws c = true
    · have hdt : drop_trailing (ms ++ [c]) = drop_trailing ms := by
        simp [drop_trailing, List.reverse_append, List.dropWhile_cons, hc]
      rw [hdt, ih]
      by_cases hnl : c = '\n'
      · subst hnl
        rw [split_nl_append_nl, process_append_empty]
      · rw [split_nl_append_last hnl, process_append_to_last hc]
    · have hdt : drop_trailing (ms ++ [c]) = ms ++ [c] := by
        simp [drop_trailing, List.reverse_append, List.dropWhile_cons, hc]
      rw [hdt]

/-- C8 fails on the code in one corner: on this line the parser succeeds with
word "lamar" and an empty pattern (the styled word also occurs before the
glyphs, so the prefix before its first occurrence is empty), and the batch
parser drops the success because the pattern component is falsy. -/
theorem claim_C8_counterexample :
    parse_multiple_guesses "𝗟𝗔𝗠𝗔𝗥🟨🟩🟥🟥🟨𝗟𝗔𝗠𝗔𝗥".toList = [] ∧
      batch_pipeline_claim "𝗟𝗔𝗠𝗔𝗥🟨🟩🟥🟥🟨𝗟𝗔𝗠𝗔𝗥".toList =
        [("lamar".toList, [])] := by decide

/-- C8 amended: the batch parser equals the split / trim / skip-blanks /
parse-each-line pipeline in which a success is kept only when both of its
components are nonempty (Python truthiness); the initial whole-message strip
performed by the code is immaterial.  The two-line scenario with an
interleaved malformed line yields exactly the two clues in input order. -/
theorem claim_C8 :
    (∀ message : List Char,
      parse_multiple_guesses message = batch_pipeline_amended message) ∧
    parse_multiple_guesses
        "🟨 🟥 🟥 🟥 🟥 **FAIRY**\nsome explanation\n🟥 🟨 🟥 🟥 🟩 **CLIFF**".toList =
      [("fairy".toList, "🟨🟥🟥🟥🟥".toList),
       ("cliff".toList, "🟥🟨🟥🟥🟩".toList)] := by
  constructor
  · intro m
    rw [parse_multiple_guesses, batch_pipeline_amended,
      show py_strip m = drop_trailing (List.dropWhile is_ws m) from rfl,
      process_trailing, process_leading]
  · decide

/-! ## Round trips of the three encodings: claim C7 -/

theorem styled_roundtrip (e0 e1 e2 e3 e4 c0 c1 c2 c3 c4 : Char)
    (he0 : e0 ∈ emoji_chars) (he1 : e1 ∈ emoji_chars) (he2 : e2 ∈ emoji_chars)
    (he3 : e3 ∈ emoji_chars) (he4 : e4 ∈ emoji_chars)
    (hc0 : c0 ∈ lower_letters) (hc1 : c1 ∈ lower_letters)
    (hc2 : c2 ∈ lower_letters) (hc3 : c3 ∈ lower_letters)
    (hc4 : c4 ∈ lower_letters) :
    parse_guess (render_styled e0 e1 e2 e3 e4 c0 c1 c2 c3 c4) =
      some ([c0, c1, c2, c3, c4], [e0, e1, e2, e3, e4]) := by
  have E0 := emoji_is_emoji e0 he0
  have E1 := emoji_is_emoji e1 he1
  have E2 := emoji_is_emoji e2 he2
  have E3 := emoji_is_emoji e3 he3
  have E4 := emoji_is_emoji e4 he4
  have W0 := emoji_not_ws e0 he0
  have W1 := emoji_not_ws e1 he1
  have W2 := emoji_not_ws e2 he2
  have W3 := emoji_not_ws e3 he3
  have W4 := emoji_not_ws e4 he4
  have M0 := mb_is_math_bold c0 hc0
  have M1 := mb_is_math_bold c1 hc1
  have M2 := mb_is_math_bold c2 hc2
  have M3 := mb_is_math_bold c3 hc3
  have M4 := mb_is_math_bold c4 hc4
  have Wm0 := mb_not_ws c0 hc0
  have R0 := mb_regular_lower c0 hc0
  have R1 := mb_regular_lower c1 hc1
  have R2 := mb_regular_lower c2 hc2
  have R3 := mb_regular_lower c3 hc3
  have R4 := mb_regular_lower c4 hc4
  have B0 := mb_ne_emoji c0 hc0 e0 he0
  have B1 := mb_ne_emoji c0 hc0 e1 he1
  have B2 := mb_ne_emoji c0 hc0 e2 he2
  have B3 := mb_ne_emoji c0 hc0 e3 he3
  have B4 := mb_ne_emoji c0 hc0 e4 he4
  have Bsp := mb_ne_space c0 hc0
  have Wsp : is_ws ' ' = true := by decide
  have hmatch : match_math_bold_at (render_styled e0 e1 e2 e3 e4 c0 c1 c2 c3 c4) =
      some [to_math_bold c0, to_math_bold c1, to_math_bold c2, to_math_bold c3,
        to_math_bold c4] := by
    simp [render_styled, match_math_bold_at, match_glyphs, skip_ws, match_chars,
      E0, E1, E2, E3, E4, W1, W2, W3, W4, M0, M1, M2, M3, M4, Wm0, Wsp]
  have hsearch : search_math_bold (render_styled e0 e1 e2 e3 e4 c0 c1 c2 c3 c4) =
      some [to_math_bold c0, to_math_bold c1, to_math_bold c2, to_math_bold c3,
        to_math_bold c4] := by
    rw [show render_styled e0 e1 e2 e3 e4 c0 c1 c2 c3 c4 =
        e0 :: [' ', e1, ' ', e2, ' ', e3, ' ', e4, ' ', to_math_bold c0,
          to_math_bold c1, to_math_bold c2, to_math_bold c3, to_math_bold c4]
        from rfl] at hmatch ⊢
    simp only [search_math_bold, hmatch]
  simp only [parse_guess, hsearch]
  simp only [Option.some.injEq, Prod.mk.injEq]
  constructor
  · simp [py_lower, convert_math_bold_to_regular, R0, R1, R2, R3, R4]
  · simp only [render_styled]
    simp [split_first, starts_with, B0, B1, B2, B3, B4, Bsp, py_strip,
      remove_ws, List.dropWhile_cons, W0, W1, W2, W3, W4, Wsp]

theorem emoji_ne_star' : ∀ e ∈ emoji_chars, ('*' : Char) ≠ e := by decide

theorem markup_roundtrip (e0 e1 e2 e3 e4 c0 c1 c2 c3 c4 : Char)
    (he0 : e0 ∈ emoji_chars) (he1 : e1 ∈ emoji_chars) (he2 : e2 ∈ emoji_chars)
    (he3 : e3 ∈ emoji_chars) (he4 : e4 ∈ emoji_chars)
    (hc0 : c0 ∈ lower_letters) (hc1 : c1 ∈ lower_letters)
    (hc2 : c2 ∈ lower_letters) (hc3 : c3 ∈ lower_letters)
    (hc4 : c4 ∈ lower_letters) :
    parse_guess (render_markup e0 e1 e2 e3 e4 c0 c1 c2 c3 c4) =
      some ([c0, c1, c2, c3, c4], [e0, e1, e2, e3, e4]) := by
  have E0 := emoji_is_emoji e0 he0
  have E1 := emoji_is_emoji e1 he1
  have E2 := emoji_is_emoji e2 he2
  have E3 := emoji_is_emoji e3 he3
  have E4 := emoji_is_emoji e4 he4
  have W0 := emoji_not_ws e0 he0
  have W1 := emoji_not_ws e1 he1
  have W2 := emoji_not_ws e2 he2
  have W3 := emoji_not_ws e3 he3
  have W4 := emoji_not_ws e4 he4
  have N0 := emoji_not_math_bold e0 he0
  have N1 := emoji_not_math_bold e1 he1
  have N2 := emoji_not_math_bold e2 he2
  have N3 := emoji_not_math_bold e3 he3
  have N4 := emoji_not_math_bold e4 he4
  have A0 := upper_is_alpha c0 hc0
  have A1 := upper_is_alpha c1 hc1
  have A2 := upper_is_alpha c2 hc2
  have A3 := upper_is_alpha c3 hc3
  have A4 := upper_is_alpha c4 hc4
  have U0 := upper_not_math_bold c0 hc0
  have U1 := upper_not_math_bold c1 hc1
  have U2 := upper_not_math_bold c2 hc2
  have U3 := upper_not_math_bold c3 hc3
  have U4 := upper_not_math_bold c4 hc4
  have L0 := upper_lower c0 hc0
  have L1 := upper_lower c1 hc1
  have L2 := upper_lower c2 hc2
  have L3 := upper_lower c3 hc3
  have L4 := upper_lower c4 hc4
  have S0 := star_ne_emoji e0 he0
  have S1 := star_ne_emoji e1 he1
  have S2 := star_ne_emoji e2 he2
  have S3 := star_ne_emoji e3 he3
  have S4 := star_ne_emoji e4 he4
  have Wsp : is_ws ' ' = true := by decide
  have Wst : is_ws '*' = false := by decide
  have hnomb : search_math_bold (render_markup e0 e1 e2 e3 e4 c0 c1 c2 c3 c4) =
      none := by
    apply search_math_bold_none_of
    intro c hc
    simp only [render_markup, List.mem_cons, List.not_mem_nil, or_false] at hc
    rcases hc with rfl | rfl | rfl | rfl | rfl | rfl | rfl | rfl | rfl | rfl |
      rfl | rfl | rfl | rfl | rfl | rfl | rfl | rfl | rfl <;> assumption
  have hmk : match_markup_at (render_markup e0 e1 e2 e3 e4 c0 c1 c2 c3 c4) =
      some [py_upper_char c0, py_upper_char c1, py_upper_char c2,
        py_upper_char c3, py_upper_char c4] := by
    simp [render_markup, match_markup_at, match_glyphs, skip_ws, match_stars,
      match_chars, E0, E1, E2, E3, E4, W1, W2, W3, W4, Wsp, Wst,
      A0, A1, A2, A3, A4]
  have hsearch : search_markup (render_markup e0 e1 e2 e3 e4 c0 c1 c2 c3 c4) =
      some [py_upper_char c0, py_upper_char c1, py_upper_char c2,
        py_upper_char c3, py_upper_char c4] := by
    rw [show render_markup e0 e1 e2 e3 e4 c0 c1 c2 c3 c4 =
        e0 :: [' ', e1, ' ', e2, ' ', e3, ' ', e4, ' ', '*', '*',
          py_upper_char c0, py_upper_char c1, py_upper_char c2,
          py_upper_char c3, py_upper_char c4, '*', '*'] from rfl] at hmk ⊢
    simp only [search_markup, hmk]
  simp only [parse_guess, hnomb, hsearch]
  simp only [Option.some.injEq, Prod.mk.injEq]
  constructor
  · simp [py_lower, L0, L1, L2, L3, L4]
  · simp only [render_markup]
    simp [split_first, starts_with, S0, S1, S2, S3, S4, py_strip,
      remove_ws, List.dropWhile_cons, W0, W1, W2, W3, W4, Wsp]

theorem legacy_roundtrip (e0 e1 e2 e3 e4 c0 c1 c2 c3 c4 : Char)
    (he0 : e0 ∈ emoji_chars) (he1 : e1 ∈ emoji_chars) (he2 : e2 ∈ emoji_chars)
    (he3 : e3 ∈ emoji_chars) (he4 : e4 ∈ emoji_chars)
    (hc0 : c0 ∈ lower_letters) (hc1 : c1 ∈ lower_letters)
    (hc2 : c2 ∈ lower_letters) (hc3 : c3 ∈ lower_letters)
    (hc4 : c4 ∈ lower_letters) :
    parse_guess (render_legacy e0 e1 e2 e3 e4 c0 c1 c2 c3 c4) =
      some ([c0, c1, c2, c3, c4], [e0, e1, e2, e3, e4]) := by
  have E0 := emoji_is_emoji e0 he0
  have E1 := emoji_is_emoji e1 he1
  have E2 := emoji_is_emoji e2 he2
  have E3 := emoji_is_emoji e3 he3
  have E4 := emoji_is_emoji e4 he4
  have W0 := emoji_not_ws e0 he0
  have N0 := emoji_not_math_bold e0 he0
  have N1 := emoji_not_math_bold e1 he1
  have N2 := emoji_not_math_bold e2 he2
  have N3 := emoji_not_math_bold e3 he3
  have N4 := emoji_not_math_bold e4 he4
  have A0 := upper_is_alpha c0 hc0
  have A1 := upper_is_alpha c1 hc1
  have A2 := upper_is_alpha c2 hc2
  have A3 := upper_is_alpha c3 hc3
  have A4 := upper_is_alpha c4 hc4
  have U0 := upper_not_math_bold c0 hc0
  have U1 := upper_not_math_bold c1 hc1
  have U2 := upper_not_math_bold c2 hc2
  have U3 := upper_not_math_bold c3 hc3
  have U4 := upper_not_math_bold c4 hc4
  have L0 := upper_lower c0 hc0
  have L1 := upper_lower c1 hc1
  have L2 := upper_lower c2 hc2
  have L3 := upper_lower c3 hc3
  have L4 := upper_lower c4 hc4
  have Wsp : is_ws ' ' = true := by decide
  have hnomb : search_math_bold (render_legacy e0 e1 e2 e3 e4 c0 c1 c2 c3 c4) =
      none := by
    apply search_math_bold_none_of
    intro c hc
    simp only [render_legacy, List.mem_cons, List.not_mem_nil, or_false] at hc
    rcases hc with rfl | rfl | rfl | rfl | rfl | rfl | rfl | rfl | rfl | rfl |
      rfl <;> first | assumption | decide
  have hnomk : search_markup (render_legacy e0 e1 e2 e3 e4 c0 c1 c2 c3 c4) =
      none := by
    apply search_markup_none_of
    intro hstar
    simp only [render_legacy, List.mem_cons, List.not_mem_nil, or_false] at hstar
    rcases hstar with h | h | h | h | h | h | h | h | h | h | h
    · exact absurd h.symm (upper_ne_star c0 hc0)
    · exact absurd h.symm (upper_ne_star c1 hc1)
    · exact absurd h.symm (upper_ne_star c2 hc2)
    · exact absurd h.symm (upper_ne_star c3 hc3)
    · exact absurd h.symm (upper_ne_star c4 hc4)
    · exact absurd h (by decide)
    · exact emoji_ne_star' e0 he0 h
    · exact emoji_ne_star' e1 he1 h
    · exact emoji_ne_star' e2 he2 h
    · exact emoji_ne_star' e3 he3 h
    · exact emoji_ne_star' e4 he4 h
  have hat : match_legacy_at (render_legacy e0 e1 e2 e3 e4 c0 c1 c2 c3 c4) =
      some ([py_upper_char c0, py_upper_char c1, py_upper_char c2,
        py_upper_char c3, py_upper_char c4], [e0, e1, e2, e3, e4]) := by
    simp [render_legacy, match_legacy_at, match_chars, skip_ws,
      A0, A1, A2, A3, A4, E0, E1, E2, E3, E4, W0, Wsp]
  have hsearch : search_legacy (render_legacy e0 e1 e2 e3 e4 c0 c1 c2 c3 c4) =
      some ([py_upper_char c0, py_upper_char c1, py_upper_char c2,
        py_upper_char c3, py_upper_char c4], [e0, e1, e2, e3, e4]) := by
    rw [show render_legacy e0 e1 e2 e3 e4 c0 c1 c2 c3 c4 =
        py_upper_char c0 :: [py_upper_char c1, py_upper_char c2,
          py_upper_char c3, py_upper_char c4, ' ', e0, e1, e2, e3, e4]
        from rfl] at hat ⊢
    simp only [search_legacy, hat]
  simp only [parse_guess, hnomb, hnomk, hsearch]
  simp only [Option.some.injEq, Prod.mk.injEq]
  exact ⟨by simp [py_lower, L0, L1, L2, L3, L4], trivial⟩

/-- C7: for each of the three encodings, rendering a canonical line from any
glyph pattern and any lower-case word and parsing it recovers exactly the
lower-cased word and the pattern in positional order; and the concrete line
"🟨 🟩 🟥 🟥 🟨 **LAMAR**" parses to word "lamar" with pattern
Present, Correct, Absent, Absent, Present (🟨🟩🟥🟥🟨). -/
theorem claim_C7 :
    (∀ e0 e1 e2 e3 e4 c0 c1 c2 c3 c4 : Char,
      e0 ∈ emoji_chars → e1 ∈ emoji_chars → e2 ∈ emoji_chars →
      e3 ∈ emoji_chars → e4 ∈ emoji_chars →
      c0 ∈ lower_letters → c1 ∈ lower_letters → c2 ∈ lower_letters →
      c3 ∈ lower_letters → c4 ∈ lower_letters →
      parse_guess (render_styled e0 e1 e2 e3 e4 c0 c1 c2 c3 c4) =
        some ([c0, c1, c2, c3, c4], [e0, e1, e2, e3, e4])) ∧
    (∀ e0 e1 e2 e3 e4 c0 c1 c2 c3 c4 : Char,
      e0 ∈ emoji_chars → e1 ∈ emoji_chars → e2 ∈ emoji_chars →
      e3 ∈ emoji_chars → e4 ∈ emoji_chars →
      c0 ∈ lower_letters → c1 ∈ lower_letters → c2 ∈ lower_letters →
      c3 ∈ lower_letters → c4 ∈ lower_letters →
      parse_guess (render_markup e0 e1 e2 e3 e4 c0 c1 c2 c3 c4) =
        some ([c0, c1, c2, c3, c4], [e0, e1, e2, e3, e4])) ∧
    (∀ e0 e1 e2 e3 e4 c0 c1 c2 c3 c4 : Char,
      e0 ∈ emoji_chars → e1 ∈ emoji_chars → e2 ∈ emoji_chars →
      e3 ∈ emoji_chars → e4 ∈ emoji_chars →
      c0 ∈ lower_letters → c1 ∈ lower_letters → c2 ∈ lower_letters →
      c3 ∈ lower_letters → c4 ∈ lower_letters →
      parse_guess (render_legacy e0 e1 e2 e3 e4 c0 c1 c2 c3 c4) =
        some ([c0, c1, c2, c3, c4], [e0, e1, e2, e3, e4])) ∧
    parse_guess "🟨 🟩 🟥 🟥 🟨 **LAMAR**".toList =
      some ("lamar".toList, "🟨🟩🟥🟥🟨".toList) :=
  ⟨fun e0 e1 e2 e3 e4 c0 c1 c2 c3 c4 he0 he1 he2 he3 he4 hc0 hc1 hc2 hc3 hc4 =>
      styled_roundtrip e0 e1 e2 e3 e4 c0 c1 c2 c3 c4
        he0 he1 he2 he3 he4 hc0 hc1 hc2 hc3 hc4,
   fun e0 e1 e2 e3 e4 c0 c1 c2 c3 c4 he0 he1 he2 he3 he4 hc0 hc1 hc2 hc3 hc4 =>
      markup_roundtrip e0 e1 e2 e3 e4 c0 c1 c2 c3 c4
        he0 he1 he2 he3 he4 hc0 hc1 hc2 hc3 hc4,
   fun e0 e1 e2 e3 e4 c0 c1 c2 c3 c4 he0 he1 he2 he3 he4 hc0 hc1 hc2 hc3 hc4 =>
      legacy_roundtrip e0 e1 e2 e3 e4 c0 c1 c2 c3 c4
        he0 he1 he2 he3 he4 hc0 hc1 hc2 hc3 hc4,
   by decide⟩

/-- Witness for claim C7: the three universal round trips applied to the
concrete pattern 🟨🟩🟥🟥🟨 and the concrete word "lamar". -/
theorem claim_C7_witness :
    parse_guess (render_styled '🟨' '🟩' '🟥' '🟥' '🟨' 'l' 'a' 'm' 'a' 'r') =
        some (['l', 'a', 'm', 'a', 'r'], ['🟨', '🟩', '🟥', '🟥', '🟨']) ∧
    parse_guess (render_markup '🟨' '🟩' '🟥' '🟥' '🟨' 'l' 'a' 'm' 'a' 'r') =
        some (['l', 'a', 'm', 'a', 'r'], ['🟨', '🟩', '🟥', '🟥', '🟨']) ∧
    parse_guess (render_legacy '🟨' '🟩' '🟥' '🟥' '🟨' 'l' 'a' 'm' 'a' 'r') =
        some (['l', 'a', 'm', 'a', 'r'], ['🟨', '🟩', '🟥', '🟥', '🟨']) :=
  ⟨claim_C7.1 '🟨' '🟩' '🟥' '🟥' '🟨' 'l' 'a' 'm' 'a' 'r'
      (by decide) (by decide) (by decide) (by decide) (by decide)
      (by decide) (by decide) (by decide) (by decide) (by decide),
   claim_C7.2.1 '🟨' '🟩' '🟥' '🟥' '🟨' 'l' 'a' 'm' 'a' 'r'
      (by decide) (by decide) (by decide) (by decide) (by decide)
      (by decide) (by decide) (by decide) (by decide) (by decide),
   claim_C7.2.2.1 '🟨' '🟩' '🟥' '🟥' '🟨' 'l' 'a' 'm' 'a' 'r'
      (by decide) (by decide) (by decide) (by decide) (by decide)
      (by decide) (by decide) (by decide) (by decide) (by decide)⟩

end WordSolver
